import Mathlib

/-!
Verification of the trajectory-propagation core of the
HypersonicVehicles-PreLandingSimulator repository.

The development shallowly embeds, in exact real arithmetic:
  * the atmosphere lookup (numpy.interp over the tabulated
    altitude/density rows) used by `entryeoms`;
  * the equations of motion `entryeoms` (OP/entryeoms.py);
  * the SciPy event constructed by `make_event` together with the
    terminal/direction crossing semantics it requests (OP/main.py);
  * the post-integration pipeline of `high_fidelity_simulation`
    (OP/main.py): fixed-grid resampling via numpy.arange, the
    spherical-to-Cartesian position conversion, the finite-difference
    velocity reconstruction, the boundary trimming, the unconditional
    load of the benchmark npz file, and the indexing hazard of the
    velocity step (the only two ways a call can fail);
  * the coordinate transforms of OP/coordinates.py
    (`DCM_ENU_2_ECEF`, `Cartesian_to_Spherical`).

Floating-point evaluation is modelled by the real numbers; numpy's
vectorised array assignments are modelled by the lists they produce.
-/

namespace EntrySim

open Real

/-- Segment walk of the numpy.interp lookup: `p` is the current left table
row; once the query `x` lies left of the next row the linear interpolation
formula between the two bracketing rows is returned, and past the final row
the final density is returned (numpy's right-boundary clamp). -/
noncomputable def interpSegs (x : ℝ) : ℝ × ℝ → List (ℝ × ℝ) → ℝ
  | p, [] => p.2
  | p, q :: rest =>
    if x ≤ q.1 then p.2 + (q.2 - p.2) * (x - p.1) / (q.1 - p.1)
    else interpSegs x q rest

/-- numpy.interp over a table of (altitude, density) rows, as called by
`entryeoms` on columns 0 and 3 of the atmosphere table: queries left of the
first row are clamped to the first density, queries inside the table are
linearly interpolated, and queries right of the last row are clamped to the
last density.  The empty table (for which numpy raises) is given the junk
value 0. -/
noncomputable def npInterp (x : ℝ) : List (ℝ × ℝ) → ℝ
  | [] => 0
  | p :: rest => if x ≤ p.1 then p.2 else interpSegs x p rest

/-- Planet parameters as consumed by `entryeoms`: gravitational parameter,
mean radius, and the atmosphere table rows (altitude, density). -/
structure Planet where
  mu : ℝ
  rp : ℝ
  atmosphere_model : List (ℝ × ℝ)

/-- Vehicle parameters: ballistic coefficient and lift-to-drag ratio. -/
structure Vehicle where
  beta : ℝ
  LD : ℝ

/-- Control parameters: the constant bank angle. -/
structure Control where
  bank_angle : ℝ

/-- The entry equations of motion of OP/entryeoms.py.  The state is
`x = [radius, longitude, latitude, velocity, flight path angle, heading]`;
the returned vector lists the six derivatives in the same order.  Division
follows the source expressions literally (the time argument is unused, as
in the source). -/
noncomputable def entryeoms (_t : ℝ) (x : Fin 6 → ℝ) (planet : Planet)
    (vehicle : Vehicle) (control : Control) : Fin 6 → ℝ :=
  let r := x 0
  let phi := x 2
  let V := x 3
  let gamma := x 4
  let psi := x 5
  let mu := planet.mu
  let beta := vehicle.beta
  let LD := vehicle.LD
  let bank := control.bank_angle
  let h := r - planet.rp
  let rho := npInterp h planet.atmosphere_model
  let raddot := V * Real.sin gamma
  let thetadot := V * Real.cos gamma * Real.cos psi / (r * Real.cos phi)
  let phidot := V * Real.cos gamma * Real.sin psi / r
  let veldot := -rho * V ^ 2 / (2 * beta) - mu * Real.sin gamma / r ^ 2
  let gammadot := V * Real.cos gamma / r
    + rho * V * LD * Real.cos bank / (2 * beta)
    - mu * Real.cos gamma / (V * r ^ 2)
  let psidot := rho * V * LD * Real.sin bank / (2 * beta * Real.cos gamma)
    - V * Real.cos gamma * Real.cos psi * Real.tan phi / r
  ![raddot, thetadot, phidot, veldot, gammadot, psidot]

/-- The linear interpolation formula between two table rows, the value
numpy.interp produces for queries bracketed by rows `a` and `b`. -/
noncomputable def rowLerp (a b : ℝ × ℝ) (x : ℝ) : ℝ :=
  a.2 + (b.2 - a.2) * (x - a.1) / (b.1 - a.1)

instance : IsTrans (ℝ × ℝ) (fun a b => a.1 < b.1) :=
  ⟨fun _ _ _ h1 h2 => lt_trans h1 h2⟩

lemma rowLt_get_mono (l : List (ℝ × ℝ))
    (h : l.Chain' (fun a b => a.1 < b.1)) (i j : Fin l.length) (hij : i < j) :
    (l.get i).1 < (l.get j).1 :=
  List.pairwise_iff_get.mp (List.chain'_iff_pairwise.mp h) i j hij

lemma mem_fst_le_getLast (l : List (ℝ × ℝ))
    (h : l.Chain' (fun a b => a.1 < b.1)) (hne : l ≠ []) :
    ∀ q ∈ l, q.1 ≤ (l.getLast hne).1 := by
  intro q hq
  obtain ⟨k, hk⟩ := List.mem_iff_get.mp hq
  rw [List.getLast_eq_get]
  have hlen : 0 < l.length := List.length_pos.mpr hne
  rcases lt_or_eq_of_le (Nat.le_sub_one_of_lt k.isLt) with hlt | heq
  · exact le_of_lt (hk ▸ rowLt_get_mono l h k ⟨l.length - 1, by omega⟩ hlt)
  · rw [← hk]
    exact le_of_eq (congrArg (fun t => (l.get t).1) (Fin.ext heq))

lemma interpSegs_of_all_lt (x : ℝ) (p : ℝ × ℝ) (rest : List (ℝ × ℝ))
    (h : ∀ q ∈ rest, q.1 < x) :
    interpSegs x p rest = ((p :: rest).getLast (by simp)).2 := by
  induction rest generalizing p with
  | nil => simp [interpSegs]
  | cons q rest ih =>
    simp only [interpSegs]
    rw [if_neg (not_le.mpr (h q (List.mem_cons_self q rest)))]
    rw [ih q (fun q' hq' => h q' (List.mem_cons_of_mem q hq'))]
    rw [List.getLast_cons (List.cons_ne_nil q rest)]

lemma npInterp_bracket (l : List (ℝ × ℝ)) :
    l.Chain' (fun a b => a.1 < b.1) →
    ∀ (i : ℕ) (hi : i + 1 < l.length) (x : ℝ),
      (l.get ⟨i, by omega⟩).1 ≤ x → x ≤ (l.get ⟨i + 1, hi⟩).1 →
      npInterp x l = rowLerp (l.get ⟨i, by omega⟩) (l.get ⟨i + 1, hi⟩) x := by
  induction l with
  | nil => intro _ i hi; simp at hi
  | cons p rest ih =>
    intro hch i hi x hxl hxr
    match rest, hch, hi, hxl, hxr, ih with
    | q :: rest', hch, hi, hxl, hxr, ih =>
      have hpq : p.1 < q.1 := (List.chain'_cons.mp hch).1
      have htail : (q :: rest').Chain' (fun a b => a.1 < b.1) :=
        (List.chain'_cons.mp hch).2
      match i, hi, hxl, hxr with
      | 0, hi, hxl, hxr =>
        by_cases hxp : x ≤ p.1
        · have hx : x = p.1 := le_antisymm hxp hxl
          simp [npInterp, if_pos hxp, rowLerp, hx, List.get]
        · simp only [npInterp, if_neg hxp, interpSegs, List.get] at hxr ⊢
          rw [if_pos hxr]
          rfl
      | Nat.succ j, hi, hxl, hxr =>
        have hj1 : j < (q :: rest').length := by
          simp only [List.length_cons] at hi ⊢; omega
        have hqj : q.1 ≤ ((q :: rest').get ⟨j, hj1⟩).1 := by
          rcases Nat.eq_zero_or_pos j with h0 | hpos
          · subst h0; exact le_refl _
          · exact le_of_lt
              (rowLt_get_mono (q :: rest') htail ⟨0, by simp⟩ ⟨j, hj1⟩ hpos)
        have hget : (p :: q :: rest').get ⟨j + 1, by omega⟩ =
            (q :: rest').get ⟨j, hj1⟩ := rfl
        have hqx : q.1 ≤ x := le_trans hqj (by rw [← hget]; exact hxl)
        have hpx : ¬ x ≤ p.1 := not_le.mpr (lt_of_lt_of_le hpq hqx)
        simp only [npInterp, if_neg hpx]
        by_cases hxq : x ≤ q.1
        · have hxe : x = q.1 := le_antisymm hxq hqx
          have hj0 : j = 0 := by
            by_contra hne0
            have hpos : 0 < j := Nat.pos_of_ne_zero hne0
            have := rowLt_get_mono (q :: rest') htail ⟨0, by simp⟩ ⟨j, hj1⟩ hpos
            simp only [List.get] at this
            have : q.1 < q.1 := lt_of_lt_of_le this (hxe ▸ (hget ▸ hxl))
            exact lt_irrefl _ this
          subst hj0
          have hd : q.1 - p.1 ≠ 0 := sub_ne_zero_of_ne (ne_of_gt hpq)
          simp only [interpSegs, if_pos hxq, rowLerp, List.get, hxe]
          field_simp
        · simp only [interpSegs, if_neg hxq]
          have hrw : interpSegs x q rest' = npInterp x (q :: rest') := by
            simp only [npInterp, if_neg hxq]
          rw [hrw]
          have hi' : j + 1 < (q :: rest').length := by
            simp only [List.length_cons] at hi ⊢; omega
          have hxl' : ((q :: rest').get ⟨j, by omega⟩).1 ≤ x := by
            rw [← hget]; exact hxl
          have hxr' : x ≤ ((q :: rest').get ⟨j + 1, hi'⟩).1 := hxr
          exact ih htail j hi' x hxl' hxr'

/-- C5: for altitudes strictly below the first tabulated altitude the lookup
returns exactly the first row's density, for altitudes strictly above the
last tabulated altitude it returns exactly the last row's density, and for
altitudes bracketed by two consecutive rows of the sorted table it returns
the piecewise-linear interpolant of those rows. -/
theorem np_interp_clamped_and_linear (tbl : List (ℝ × ℝ)) (x : ℝ)
    (hne : tbl ≠ []) (hsort : tbl.Chain' (fun a b => a.1 < b.1)) :
    (x < (tbl.head hne).1 → npInterp x tbl = (tbl.head hne).2) ∧
    ((tbl.getLast hne).1 < x → npInterp x tbl = (tbl.getLast hne).2) ∧
    (∀ (i : ℕ) (hi : i + 1 < tbl.length),
      (tbl.get ⟨i, by omega⟩).1 ≤ x → x ≤ (tbl.get ⟨i + 1, hi⟩).1 →
      npInterp x tbl = rowLerp (tbl.get ⟨i, by omega⟩) (tbl.get ⟨i + 1, hi⟩) x) := by
  refine ⟨?_, ?_, ?_⟩
  · intro hx
    match tbl, hne with
    | p :: rest, _ =>
      simp only [List.head] at hx ⊢
      simp [npInterp, le_of_lt hx]
  · intro hx
    match tbl, hne with
    | p :: rest, hne =>
      have hall : ∀ q ∈ (p :: rest), q.1 < x := fun q hq =>
        lt_of_le_of_lt (mem_fst_le_getLast (p :: rest) hsort hne q hq) hx
      have hpx : ¬ x ≤ p.1 :=
        not_le.mpr (hall p (List.mem_cons_self p rest))
      simp only [npInterp, if_neg hpx]
      exact interpSegs_of_all_lt x p rest
        (fun q hq => hall q (List.mem_cons_of_mem p hq))
  · intro i hi hxl hxr
    exact npInterp_bracket tbl hsort i hi x hxl hxr

/-- Concrete instance of the C5 theorem on the table
[(0, 10), (100, 20), (300, 60)]: a query below the table clamps to 10,
a query above clamps to 60, and the query 200 interpolates to 40. -/
theorem np_interp_clamped_and_linear_witness :
    npInterp (-5) [((0 : ℝ), (10 : ℝ)), (100, 20), (300, 60)] = 10 ∧
    npInterp 1000 [((0 : ℝ), (10 : ℝ)), (100, 20), (300, 60)] = 60 ∧
    npInterp 200 [((0 : ℝ), (10 : ℝ)), (100, 20), (300, 60)] = 40 := by
  have hne : ([((0 : ℝ), (10 : ℝ)), (100, 20), (300, 60)] : List (ℝ × ℝ)) ≠ [] := by simp
  have hsort : ([((0 : ℝ), (10 : ℝ)), (100, 20), (300, 60)] : List (ℝ × ℝ)).Chain'
      (fun a b => a.1 < b.1) := by
    simp only [List.chain'_cons, List.chain'_singleton, and_true]
    norm_num
  refine ⟨?_, ?_, ?_⟩
  · have h := (np_interp_clamped_and_linear _ (-5) hne hsort).1
    simp only [List.head] at h
    exact h (by norm_num)
  · have h := (np_interp_clamped_and_linear _ 1000 hne hsort).2.1
    simp only [List.getLast] at h
    exact h (by norm_num)
  · have h := (np_interp_clamped_and_linear _ 200 hne hsort).2.2 1 (by norm_num)
    simp only [List.get] at h
    rw [h (by norm_num) (by norm_num)]
    norm_num [rowLerp]

/-- C1: on any state with positive radius, non-vanishing `cos phi`,
non-vanishing `cos gamma` and non-zero speed, `entryeoms` returns exactly
the six-element derivative vector claimed by the specification: the three
kinematic rates, the drag-plus-gravity speed decay with the density taken
from the atmosphere lookup at altitude `r - rp`, the flight-path rate
combining the centrifugal, lift and gravity terms, and the heading rate
combining the lift-induced turn with the geometric `tan phi` term. -/
theorem entryeoms_spec (t : ℝ) (x : Fin 6 → ℝ) (p : Planet) (veh : Vehicle)
    (ctl : Control) (hr : 0 < x 0) (hphi : Real.cos (x 2) ≠ 0)
    (hgamma : Real.cos (x 4) ≠ 0) (hV : x 3 ≠ 0) :
    entryeoms t x p veh ctl =
      ![x 3 * Real.sin (x 4),
        x 3 * Real.cos (x 4) * Real.cos (x 5) / (x 0 * Real.cos (x 2)),
        x 3 * Real.cos (x 4) * Real.sin (x 5) / x 0,
        -(npInterp (x 0 - p.rp) p.atmosphere_model) * x 3 ^ 2 / (2 * veh.beta)
          - p.mu * Real.sin (x 4) / x 0 ^ 2,
        x 3 * Real.cos (x 4) / x 0
          + npInterp (x 0 - p.rp) p.atmosphere_model * x 3 * veh.LD
              * Real.cos ctl.bank_angle / (2 * veh.beta)
          - p.mu * Real.cos (x 4) / (x 3 * x 0 ^ 2),
        npInterp (x 0 - p.rp) p.atmosphere_model * x 3 * veh.LD
            * Real.sin ctl.bank_angle / (2 * veh.beta * Real.cos (x 4))
          - x 3 * Real.cos (x 4) * Real.cos (x 5) * Real.tan (x 2) / x 0] :=
  rfl

/-- Concrete state used by the C1 witness: radius 1,
longitude 0, latitude 0, speed 1, flight-path angle 0, heading 0. -/
noncomputable def xw : Fin 6 → ℝ := ![1, 0, 0, 1, 0, 0]

/-- Planet with mu = 1, rp = 0 and an empty atmosphere table, used by the
C1 witness. -/
noncomputable def pw : Planet := ⟨1, 0, []⟩

/-- Vehicle with beta = 1 and LD = 1, used by the C1 witness. -/
noncomputable def vw : Vehicle := ⟨1, 1⟩

/-- Zero bank angle, used by the C1 witness. -/
noncomputable def cw : Control := ⟨0⟩

/-- Concrete instance of the C1 theorem at the state `xw`, discharging the
positivity and non-degeneracy hypotheses there. -/
theorem entryeoms_spec_witness :
    0 < xw 0 ∧ Real.cos (xw 2) ≠ 0 ∧ Real.cos (xw 4) ≠ 0 ∧ xw 3 ≠ 0 ∧
    entryeoms 0 xw pw vw cw =
      ![xw 3 * Real.sin (xw 4),
        xw 3 * Real.cos (xw 4) * Real.cos (xw 5) / (xw 0 * Real.cos (xw 2)),
        xw 3 * Real.cos (xw 4) * Real.sin (xw 5) / xw 0,
        -(npInterp (xw 0 - pw.rp) pw.atmosphere_model) * xw 3 ^ 2 / (2 * vw.beta)
          - pw.mu * Real.sin (xw 4) / xw 0 ^ 2,
        xw 3 * Real.cos (xw 4) / xw 0
          + npInterp (xw 0 - pw.rp) pw.atmosphere_model * xw 3 * vw.LD
              * Real.cos cw.bank_angle / (2 * vw.beta)
          - pw.mu * Real.cos (xw 4) / (xw 3 * xw 0 ^ 2),
        npInterp (xw 0 - pw.rp) pw.atmosphere_model * xw 3 * vw.LD
            * Real.sin cw.bank_angle / (2 * vw.beta * Real.cos (xw 4))
          - xw 3 * Real.cos (xw 4) * Real.cos (xw 5) * Real.tan (xw 2) / xw 0] := by
  have h0 : (0 : ℝ) < xw 0 := by norm_num [xw]
  have h2 : Real.cos (xw 2) ≠ 0 := by norm_num [xw]
  have h4 : Real.cos (xw 4) ≠ 0 := by norm_num [xw]
  have h3 : xw 3 ≠ (0 : ℝ) := by norm_num [xw]
  exact ⟨h0, h2, h4, h3, entryeoms_spec 0 xw pw vw cw h0 h2 h4 h3⟩

/-- A SciPy event function together with the `terminal` and `direction`
attributes that `make_event` sets on it. -/
structure ScipyEvent where
  g : ℝ → (Fin 6 → ℝ) → ℝ
  terminal : Bool
  direction : ℝ

/-- The event factory of OP/main.py: the event value is
`x[ind] - term`, the event is terminal, and only decreasing
(positive-to-negative) crossings are accepted. -/
def make_event (ind : Fin 6) (term : ℝ) : ScipyEvent :=
  ⟨fun _ x => x ind - term, true, -1⟩

/-- Modelled from the spec: the sign-crossing acceptance rule of SciPy's
`solve_ivp` event handling (library code outside this repository), which the
spec describes as one-directional sign-crossing termination.  Between two
successive integration steps with event values `gOld` and `gNew`, an event
with positive `direction` fires on a non-negative-going sign change, an
event with negative `direction` fires on a non-positive-going sign change,
and an event with zero `direction` fires on either. -/
def eventActive (e : ScipyEvent) (gOld gNew : ℝ) : Prop :=
  if 0 < e.direction then gOld ≤ 0 ∧ 0 ≤ gNew
  else if e.direction < 0 then 0 ≤ gOld ∧ gNew ≤ 0
  else (gOld ≤ 0 ∧ 0 ≤ gNew) ∨ (0 ≤ gOld ∧ gNew ≤ 0)

/-- Modelled from the spec: a terminal event stops the integration at the
first step pair on which it is active; `gs n` is the event value at the
n-th integration step. -/
def stopsAt (e : ScipyEvent) (gs : ℕ → ℝ) (i : ℕ) : Prop :=
  e.terminal = true ∧ eventActive e (gs i) (gs (i + 1)) ∧
    ∀ j < i, ¬ eventActive e (gs j) (gs (j + 1))

/-- C2: the event built by `make_event ind term` evaluates to
`state[ind] - term` for every time and state, is terminal, and carries
direction `-1`; under the SciPy acceptance rule this means a
positive-to-negative crossing always fires, a negative-to-positive crossing
never fires, and the integration stops at the first step pair with a
non-increasing sign change. -/
theorem make_event_spec (ind : Fin 6) (term : ℝ) :
    (∀ (t : ℝ) (x : Fin 6 → ℝ), (make_event ind term).g t x = x ind - term) ∧
    (make_event ind term).terminal = true ∧
    (make_event ind term).direction = -1 ∧
    (∀ a b : ℝ, 0 < a → b < 0 → eventActive (make_event ind term) a b) ∧
    (∀ a b : ℝ, a < 0 → 0 < b → ¬ eventActive (make_event ind term) a b) ∧
    (∀ (gs : ℕ → ℝ) (i : ℕ), stopsAt (make_event ind term) gs i →
      (0 ≤ gs i ∧ gs (i + 1) ≤ 0) ∧
        ∀ j < i, ¬ (0 ≤ gs j ∧ gs (j + 1) ≤ 0)) := by
  have hact : ∀ a b : ℝ, eventActive (make_event ind term) a b ↔ (0 ≤ a ∧ b ≤ 0) := by
    intro a b
    simp only [eventActive, make_event]
    rw [if_neg (by norm_num : ¬ ((0 : ℝ) < -1)), if_pos (by norm_num : (-1 : ℝ) < 0)]
  refine ⟨fun t x => rfl, rfl, rfl, ?_, ?_, ?_⟩
  · intro a b ha hb
    exact (hact a b).mpr ⟨le_of_lt ha, le_of_lt hb⟩
  · intro a b ha hb hc
    exact absurd ((hact a b).mp hc).1 (not_le.mpr ha)
  · intro gs i hstop
    obtain ⟨_, hA, hfirst⟩ := hstop
    exact ⟨(hact _ _).mp hA, fun j hj hc => hfirst j hj ((hact _ _).mpr hc)⟩

/-- Concrete instance of the C2 theorem: the event built for index 0 and
threshold 5 evaluates to 2 on a state with radius 7, a crossing from +1 to
-1 fires, and a crossing from -1 to +1 does not. -/
theorem make_event_spec_witness :
    (make_event 0 5).g 0 (fun _ => 7) = 2 ∧
    eventActive (make_event 0 5) 1 (-1) ∧
    ¬ eventActive (make_event 0 5) (-1) 1 := by
  have h := make_event_spec 0 5
  refine ⟨?_, h.2.2.2.1 1 (-1) one_pos (by norm_num),
    h.2.2.2.2.1 (-1) 1 (by norm_num) one_pos⟩
  rw [h.1 0 (fun _ => 7)]
  norm_num

/-- numpy.arange over the reals: the points `start + k * step` for
`k = 0, 1, ...` strictly below `stop` (for a positive step the list length
is the ceiling of `(stop - start) / step`, exactly numpy's length rule). -/
noncomputable def arange (start stop step : ℝ) : List ℝ :=
  (List.range (Nat.ceil ((stop - start) / step))).map
    (fun k : ℕ => start + (k : ℝ) * step)

lemma arange_length (start stop step : ℝ) :
    (arange start stop step).length = Nat.ceil ((stop - start) / step) := by
  rw [arange, List.length_map, List.length_range]

lemma arange_get (start stop step : ℝ) (k : ℕ)
    (hk : k < (arange start stop step).length) :
    (arange start stop step).get ⟨k, hk⟩ = start + k * step := by
  simp only [arange, List.get_eq_getElem, List.getElem_map, List.getElem_range]

/-- The boundary trim of OP/main.py: `a[1:-1]`, dropping the first and the
last entry. -/
def trim (l : List α) : List α := (l.drop 1).dropLast

lemma trim_length (l : List α) : (trim l).length = l.length - 2 := by
  simp only [trim, List.length_dropLast, List.length_drop]
  omega

lemma trim_get (l : List α) (k : ℕ) (hk : k < (trim l).length)
    (hk2 : k + 1 < l.length) :
    (trim l).get ⟨k, hk⟩ = l.get ⟨k + 1, hk2⟩ := by
  simp only [trim, List.get_eq_getElem, List.getElem_dropLast, List.getElem_drop]
  congr 1
  omega

/-- The fixed output step of the simulation-termination record of
OP/main.py (`dt = 0.1 s`). -/
noncomputable def sim_dt : ℝ := 0.1

/-- The epsilon OP/main.py adds to the upper bound of numpy.arange so that
the endpoint of the grid is included (`1e-12` in the source). -/
noncomputable def sim_eps : ℝ := 1 / 1000000000000

/-- What `solve_ivp` hands back to OP/main.py, as far as the code after the
call consumes it: the last integration time `sol.t[-1]`, the dense-output
solution functional `sol.sol`, and the detected event times
`sol.t_events[0]` (empty when the event never fired).  The source reads
only `sol.t[-1]` and `sol.sol`; it never inspects the event times or the
solver status. -/
structure OdeSolution where
  tEnd : ℝ
  sol : ℝ → Fin 6 → ℝ
  eventTimes : List ℝ

/-- The resampling grid `np.arange(0.0, t_end + 1e-12, dt)` of OP/main.py. -/
noncomputable def resample_times (tEnd : ℝ) : List ℝ :=
  arange 0 (tEnd + sim_eps) sim_dt

/-- The resampled state table `sol.sol(time_array).T` of OP/main.py: one
six-element state row per grid time. -/
noncomputable def hfs_states (s : OdeSolution) : List (Fin 6 → ℝ) :=
  (resample_times s.tEnd).map s.sol

/-- The spherical-to-inertial-Cartesian position conversion applied to each
state row in OP/main.py: with co-latitude `pi/2 - phi`,
`x = r sin(colat) cos(theta)`, `y = r sin(colat) sin(theta)`,
`z = r cos(colat)`. -/
noncomputable def toCartPos (st : Fin 6 → ℝ) : Fin 3 → ℝ :=
  ![st 0 * Real.sin (Real.pi / 2 - st 2) * Real.cos (st 1),
    st 0 * Real.sin (Real.pi / 2 - st 2) * Real.sin (st 1),
    st 0 * Real.cos (Real.pi / 2 - st 2)]

/-- The untrimmed `pos_inertial` array of OP/main.py. -/
noncomputable def hfs_pos_full (s : OdeSolution) : List (Fin 3 → ℝ) :=
  (hfs_states s).map toCartPos

/-- The finite-difference velocity reconstruction of OP/main.py: central
difference `(pos[i+1] - pos[i-1]) / (2 dt)` on interior rows, forward
difference `(pos[1] - pos[0]) / dt` on the first row and backward
difference `(pos[-1] - pos[-2]) / dt` on the last row (out-of-range reads,
on which numpy raises IndexError, are given the junk row 0 here; the
caller `high_fidelity_simulation` only reaches this computation with at
least two rows). -/
noncomputable def vel_fd (pos : List (Fin 3 → ℝ)) (dt : ℝ) : List (Fin 3 → ℝ) :=
  (List.range pos.length).map (fun i j =>
    if i = 0 then (pos.getD 1 0 j - pos.getD 0 0 j) / dt
    else if i = pos.length - 1 then
      (pos.getD (pos.length - 1) 0 j - pos.getD (pos.length - 2) 0 j) / dt
    else (pos.getD (i + 1) 0 j - pos.getD (i - 1) 0 j) / (2 * dt))

/-- The untrimmed `vel_inertial` array of OP/main.py. -/
noncomputable def hfs_vel_full (s : OdeSolution) : List (Fin 3 → ℝ) :=
  vel_fd (hfs_pos_full s) sim_dt

/-- The two ways one call of `high_fidelity_simulation` can fail: the
unconditional `np.load("benchmark_DOP853_1e9.npz")` raising
FileNotFoundError, and `pos_inertial[1]` raising IndexError when the
resampling grid has fewer than two points.  The source defines no other
failure on this path - in particular no singular-geometry or
event-not-reached error. -/
inductive SimErr where
  | fileNotFound : SimErr
  | indexOutOfRange : SimErr

/-- The dictionary returned by `high_fidelity_simulation` with
`return_states=True`: the trimmed shifted time grid, the untrimmed state
table, and the trimmed inertial position and velocity arrays (the
`return_states=False` branch returns the same trimmed arrays split into
named columns). -/
structure SimOutput where
  time_s : List ℝ
  states : List (Fin 6 → ℝ)
  pos_inertial : List (Fin 3 → ℝ)
  vel_inertial : List (Fin 3 → ℝ)

/-- The post-integration pipeline of `high_fidelity_simulation`
(OP/main.py), as a function of the solver result, the caller's
`start_time_s` and the presence of the benchmark npz file in the working
directory: resample on the epsilon-padded arange grid, load the benchmark
file (unconditionally - failing when it is absent), convert to Cartesian
positions, reconstruct velocities by finite differences (failing on the
out-of-range read when the grid has fewer than two points), trim the first
and last samples, and return the result keyed by the shifted time grid. -/
noncomputable def high_fidelity_simulation (s : OdeSolution) (start_time_s : ℝ)
    (benchmarkFilePresent : Bool) : Except SimErr SimOutput :=
  if benchmarkFilePresent then
    if 2 ≤ (resample_times s.tEnd).length then
      Except.ok
        ⟨(trim (resample_times s.tEnd)).map (fun t => t + start_time_s),
         hfs_states s,
         trim (hfs_pos_full s),
         trim (hfs_vel_full s)⟩
    else Except.error SimErr.indexOutOfRange
  else Except.error SimErr.fileNotFound

lemma hfs_ok (s : OdeSolution) (start_time_s : ℝ)
    (h2 : 2 ≤ (resample_times s.tEnd).length) :
    high_fidelity_simulation s start_time_s true =
      Except.ok
        ⟨(trim (resample_times s.tEnd)).map (fun t => t + start_time_s),
         hfs_states s,
         trim (hfs_pos_full s),
         trim (hfs_vel_full s)⟩ := by
  simp [high_fidelity_simulation, h2]

lemma resample_length_ge_two (tEnd : ℝ) (h : (1 : ℝ) < (tEnd + sim_eps) / sim_dt) :
    2 ≤ (resample_times tEnd).length := by
  have : 1 < (resample_times tEnd).length := by
    rw [resample_times, arange_length, sub_zero]
    exact Nat.lt_ceil.mpr (by exact_mod_cast h)
  omega

/-- C3: when the integration reaches the 1000 s time limit with the event
list empty (the event never crossed its threshold), the call still returns
a normal result resampled up to the time limit - the source never inspects
`sol.status` or `sol.t_events`, so no failure is surfaced to the caller. -/
theorem no_event_reached_still_returns_result (f : ℝ → Fin 6 → ℝ)
    (start_time_s : ℝ) :
    ∃ out : SimOutput,
      high_fidelity_simulation ⟨1000, f, []⟩ start_time_s true = Except.ok out := by
  exact ⟨_, hfs_ok ⟨1000, f, []⟩ start_time_s
    (resample_length_ge_two 1000 (by norm_num [sim_eps, sim_dt]))⟩

/-- C4: one call of the propagation pipeline can only fail by the missing
benchmark file or by the short-grid index error; for every solver outcome -
including one produced from a polar initial state `phi0 = pi/2`, whose
dense output the pipeline resamples blindly - it otherwise returns the
samples of the dense solution.  No singular-geometry (non-finite
derivative) check exists on this path. -/
theorem no_singular_geometry_failure (s : OdeSolution) (start_time_s : ℝ)
    (filePresent : Bool) :
    high_fidelity_simulation s start_time_s filePresent =
        Except.error SimErr.fileNotFound ∨
    high_fidelity_simulation s start_time_s filePresent =
        Except.error SimErr.indexOutOfRange ∨
    ∃ out : SimOutput,
      high_fidelity_simulation s start_time_s filePresent = Except.ok out ∧
        out.states = hfs_states s := by
  cases filePresent with
  | false => exact Or.inl (by simp [high_fidelity_simulation])
  | true =>
    rcases le_or_lt 2 (resample_times s.tEnd).length with h2 | h2
    · exact Or.inr (Or.inr ⟨_, hfs_ok s start_time_s h2, rfl⟩)
    · exact Or.inr (Or.inl (by simp [high_fidelity_simulation, Nat.not_le.mpr h2]))

/-- C6: with identical planet/initial-state/vehicle/control inputs (here:
identical solver outcomes and start time), whether the call succeeds
depends on whether the file benchmark_DOP853_1e9.npz is present in the
working directory - the source loads it unconditionally on every call, so
the result does not depend on the call inputs alone. -/
theorem success_depends_on_benchmark_file :
    high_fidelity_simulation ⟨1000, fun _ _ => 0, []⟩ 0 false =
        Except.error SimErr.fileNotFound ∧
    ∃ out : SimOutput,
      high_fidelity_simulation ⟨1000, fun _ _ => 0, []⟩ 0 true =
        Except.ok out := by
  refine ⟨by simp [high_fidelity_simulation], ⟨_, hfs_ok _ 0
    (resample_length_ge_two 1000 (by norm_num [sim_eps, sim_dt]))⟩⟩

lemma resample_get (tEnd : ℝ) (k : ℕ) (hk : k < (resample_times tEnd).length) :
    (resample_times tEnd).get ⟨k, hk⟩ = (k : ℝ) * sim_dt := by
  rw [show (resample_times tEnd).get ⟨k, hk⟩ = (arange 0 (tEnd + sim_eps) sim_dt).get ⟨k, hk⟩ from rfl,
    arange_get, zero_add]

lemma trimmed_time_get (s : OdeSolution) (start_time_s : ℝ) (i : ℕ)
    (hi : i < ((trim (resample_times s.tEnd)).map
      (fun u => u + start_time_s)).length) :
    ((trim (resample_times s.tEnd)).map (fun u => u + start_time_s)).get ⟨i, hi⟩ =
      ((i : ℝ) + 1) * sim_dt + start_time_s := by
  have hi' : i < (trim (resample_times s.tEnd)).length := by
    rw [List.length_map] at hi; exact hi
  have hi2 : i + 1 < (resample_times s.tEnd).length := by
    have := trim_length (resample_times s.tEnd)
    omega
  rw [List.get_map, trim_get _ i hi' hi2, resample_get]
  push_cast
  ring

/-- C7: for every successful call, the returned time array is the uniform
grid `0, dt, 2dt, ...` of every multiple of `dt` strictly below
`t_end + epsilon` (the numpy.arange upper bound with the endpoint-including
epsilon), with exactly the first and last grid samples dropped from the
returned time, position and velocity arrays and the caller's start time
added; consecutive returned times are strictly increasing with step
exactly `dt`. -/
theorem resample_grid_spec (s : OdeSolution) (start_time_s : ℝ)
    (out : SimOutput)
    (h : high_fidelity_simulation s start_time_s true = Except.ok out) :
    out.time_s = (trim (resample_times s.tEnd)).map (fun u => u + start_time_s) ∧
    out.pos_inertial = trim (hfs_pos_full s) ∧
    out.vel_inertial = trim (hfs_vel_full s) ∧
    (∀ (k : ℕ) (hk : k < (resample_times s.tEnd).length),
        (resample_times s.tEnd).get ⟨k, hk⟩ = (k : ℝ) * sim_dt) ∧
    (∀ k : ℕ,
        k < (resample_times s.tEnd).length ↔
          (k : ℝ) * sim_dt < s.tEnd + sim_eps) ∧
    (∀ (i : ℕ) (hi : i < out.time_s.length),
        out.time_s.get ⟨i, hi⟩ = ((i : ℝ) + 1) * sim_dt + start_time_s) ∧
    (∀ (i : ℕ) (hi : i + 1 < out.time_s.length),
        out.time_s.get ⟨i, by omega⟩ < out.time_s.get ⟨i + 1, hi⟩ ∧
          out.time_s.get ⟨i + 1, hi⟩ - out.time_s.get ⟨i, by omega⟩ = sim_dt) := by
  have h2 : 2 ≤ (resample_times s.tEnd).length := by
    by_contra hlt
    rw [high_fidelity_simulation, if_pos rfl, if_neg hlt] at h
    exact Except.noConfusion h
  rw [hfs_ok s start_time_s h2] at h
  obtain rfl : out = _ := (Except.ok.inj h).symm
  refine ⟨rfl, rfl, rfl, resample_get s.tEnd, ?_, trimmed_time_get s start_time_s, ?_⟩
  · intro k
    rw [resample_times, arange_length, sub_zero, Nat.lt_ceil,
      lt_div_iff (by norm_num [sim_dt] : (0 : ℝ) < sim_dt)]
  · intro i hi
    have hi0 : i < ((trim (resample_times s.tEnd)).map
        (fun u => u + start_time_s)).length := Nat.lt_of_succ_lt hi
    rw [trimmed_time_get s start_time_s i hi0, trimmed_time_get s start_time_s (i + 1) hi]
    constructor
    · push_cast
      have : (0 : ℝ) < sim_dt := by norm_num [sim_dt]
      nlinarith
    · push_cast
      ring

/-- Solver outcome used by the concrete witnesses: last integration time
1 s, identically-zero dense output, one detected event. -/
noncomputable def s1 : OdeSolution := ⟨1, fun _ _ => 0, [1]⟩

/-- The output record `high_fidelity_simulation s1 0 true` produces. -/
noncomputable def out1 : SimOutput :=
  ⟨(trim (resample_times s1.tEnd)).map (fun t => t + 0),
   hfs_states s1, trim (hfs_pos_full s1), trim (hfs_vel_full s1)⟩

lemma s1_len2 : 2 ≤ (resample_times s1.tEnd).length :=
  resample_length_ge_two 1 (by norm_num [sim_eps, sim_dt])

/-- Concrete instance of the C7 theorem on the solver outcome `s1`. -/
theorem resample_grid_spec_witness :
    high_fidelity_simulation s1 0 true = Except.ok out1 ∧
    out1.time_s = (trim (resample_times s1.tEnd)).map (fun u => u + 0) ∧
    (∀ k : ℕ,
        k < (resample_times s1.tEnd).length ↔
          (k : ℝ) * sim_dt < s1.tEnd + sim_eps) ∧
    (∀ (i : ℕ) (hi : i < out1.time_s.length),
        out1.time_s.get ⟨i, hi⟩ = ((i : ℝ) + 1) * sim_dt + 0) := by
  have h : high_fidelity_simulation s1 0 true = Except.ok out1 :=
    hfs_ok s1 0 s1_len2
  have hs := resample_grid_spec s1 0 out1 h
  exact ⟨h, hs.1, hs.2.2.2.2.1, hs.2.2.2.2.2.1⟩

lemma vel_fd_length (pos : List (Fin 3 → ℝ)) (dt : ℝ) :
    (vel_fd pos dt).length = pos.length := by
  rw [vel_fd, List.length_map, List.length_range]

lemma vel_fd_getD (pos : List (Fin 3 → ℝ)) (dt : ℝ) (i : ℕ)
    (hi : i < pos.length) :
    (vel_fd pos dt).getD i 0 = fun j =>
      if i = 0 then (pos.getD 1 0 j - pos.getD 0 0 j) / dt
      else if i = pos.length - 1 then
        (pos.getD (pos.length - 1) 0 j - pos.getD (pos.length - 2) 0 j) / dt
      else (pos.getD (i + 1) 0 j - pos.getD (i - 1) 0 j) / (2 * dt) := by
  have hi' : i < (vel_fd pos dt).length := by rw [vel_fd_length]; exact hi
  rw [List.getD_eq_getElem _ _ hi']
  simp only [vel_fd, List.getElem_map, List.getElem_range]

/-- C9: the reconstructed velocity series has one row per position row and
equals the forward difference `(pos[1] - pos[0]) / dt` at the first index,
the backward difference `(pos[n-1] - pos[n-2]) / dt` at the last index, and
the central difference `(pos[i+1] - pos[i-1]) / (2 dt)` at every interior
index. -/
theorem vel_fd_spec (pos : List (Fin 3 → ℝ)) (dt : ℝ)
    (h2 : 2 ≤ pos.length) (hdt : 0 < dt) :
    (vel_fd pos dt).length = pos.length ∧
    ((vel_fd pos dt).getD 0 0 =
      fun j => (pos.getD 1 0 j - pos.getD 0 0 j) / dt) ∧
    ((vel_fd pos dt).getD (pos.length - 1) 0 =
      fun j => (pos.getD (pos.length - 1) 0 j - pos.getD (pos.length - 2) 0 j) / dt) ∧
    (∀ i : ℕ, 0 < i → i < pos.length - 1 →
      (vel_fd pos dt).getD i 0 =
        fun j => (pos.getD (i + 1) 0 j - pos.getD (i - 1) 0 j) / (2 * dt)) := by
  refine ⟨vel_fd_length pos dt, ?_, ?_, ?_⟩
  · rw [vel_fd_getD pos dt 0 (by omega)]
    simp
  · rw [vel_fd_getD pos dt (pos.length - 1) (by omega)]
    have hne : pos.length - 1 ≠ 0 := by omega
    simp [hne]
  · intro i h0 h1
    rw [vel_fd_getD pos dt i (by omega)]
    have hne0 : i ≠ 0 := by omega
    have hnel : i ≠ pos.length - 1 := by omega
    simp [hne0, hnel]

/-- Concrete instance of the C9 theorem on a three-row position series. -/
theorem vel_fd_spec_witness :
    2 ≤ ([(0 : Fin 3 → ℝ), fun _ => 1, fun _ => 3] : List (Fin 3 → ℝ)).length ∧
    (0 : ℝ) < 1 ∧
    (vel_fd [(0 : Fin 3 → ℝ), fun _ => 1, fun _ => 3] 1).length = 3 ∧
    ((vel_fd [(0 : Fin 3 → ℝ), fun _ => 1, fun _ => 3] 1).getD 1 0 =
      fun j => (([(0 : Fin 3 → ℝ), fun _ => 1, fun _ => 3].getD 2 0) j -
        ([(0 : Fin 3 → ℝ), fun _ => 1, fun _ => 3].getD 0 0) j) / (2 * 1)) := by
  have h2 : 2 ≤ ([(0 : Fin 3 → ℝ), fun _ => 1, fun _ => 3] : List (Fin 3 → ℝ)).length := by
    simp
  have hs := vel_fd_spec [(0 : Fin 3 → ℝ), fun _ => 1, fun _ => 3] 1 h2 one_pos
  exact ⟨h2, one_pos, hs.1, hs.2.2.2 1 one_pos (by simp)⟩

/-- C10: on every successful call the returned `states` table is not
trimmed: it has exactly two more rows than the returned time, position and
velocity arrays, its row i is the dense solution evaluated at the
untrimmed grid point `i * dt` (so it includes `t = 0` and the final grid
point), while entry i of the returned time array is the shifted grid point
`(i+1) * dt` - row i of `states` therefore corresponds to grid point i,
not to entry i of `time_s`. -/
theorem states_untrimmed (s : OdeSolution) (start_time_s : ℝ)
    (out : SimOutput)
    (h : high_fidelity_simulation s start_time_s true = Except.ok out) :
    out.states.length = out.time_s.length + 2 ∧
    out.states.length = out.pos_inertial.length + 2 ∧
    out.states.length = out.vel_inertial.length + 2 ∧
    (∀ (i : ℕ) (hi : i < out.states.length),
        out.states.get ⟨i, hi⟩ = s.sol ((i : ℝ) * sim_dt)) ∧
    (∀ (i : ℕ) (hi : i < out.time_s.length),
        out.time_s.get ⟨i, hi⟩ = ((i : ℝ) + 1) * sim_dt + start_time_s) := by
  have h2 : 2 ≤ (resample_times s.tEnd).length := by
    by_contra hlt
    rw [high_fidelity_simulation, if_pos rfl, if_neg hlt] at h
    exact Except.noConfusion h
  rw [hfs_ok s start_time_s h2] at h
  obtain rfl : out = _ := (Except.ok.inj h).symm
  have hstlen : (hfs_states s).length = (resample_times s.tEnd).length := by
    rw [hfs_states, List.length_map]
  have hplen : (hfs_pos_full s).length = (resample_times s.tEnd).length := by
    rw [hfs_pos_full, List.length_map, hstlen]
  refine ⟨?_, ?_, ?_, ?_, trimmed_time_get s start_time_s⟩
  · show (hfs_states s).length =
      ((trim (resample_times s.tEnd)).map (fun t => t + start_time_s)).length + 2
    rw [hstlen, List.length_map, trim_length]
    omega
  · show (hfs_states s).length = (trim (hfs_pos_full s)).length + 2
    rw [hstlen, trim_length, hplen]
    omega
  · show (hfs_states s).length = (trim (hfs_vel_full s)).length + 2
    rw [hstlen, trim_length, hfs_vel_full, vel_fd_length, hplen]
    omega
  · intro i hi
    show (hfs_states s).get _ = s.sol ((i : ℝ) * sim_dt)
    have hi' : i < (resample_times s.tEnd).length := by
      rw [← hstlen]; exact hi
    rw [show (hfs_states s).get ⟨i, hi⟩ =
        ((resample_times s.tEnd).map s.sol).get ⟨i, hi⟩ from rfl, List.get_map]
    rw [resample_get]

/-- Concrete instance of the C10 theorem on the solver outcome `s1`. -/
theorem states_untrimmed_witness :
    high_fidelity_simulation s1 0 true = Except.ok out1 ∧
    out1.states.length = out1.time_s.length + 2 ∧
    (∀ (i : ℕ) (hi : i < out1.states.length),
        out1.states.get ⟨i, hi⟩ = s1.sol ((i : ℝ) * sim_dt)) := by
  have h : high_fidelity_simulation s1 0 true = Except.ok out1 :=
    hfs_ok s1 0 s1_len2
  have hs := states_untrimmed s1 0 out1 h
  exact ⟨h, hs.1, hs.2.2.2.1⟩

/-- numpy.arctan2 in exact arithmetic: the argument of the complex number
`x + y i`, valued in `(-pi, pi]`. -/
noncomputable def atan2 (y x : ℝ) : ℝ := Complex.arg ⟨x, y⟩

lemma atan2_mul (R a : ℝ) (hR : 0 < R) (ha : a ∈ Set.Ioc (-Real.pi) Real.pi) :
    atan2 (R * Real.sin a) (R * Real.cos a) = a := by
  unfold atan2
  have hc : (⟨R * Real.cos a, R * Real.sin a⟩ : ℂ) =
      (R : ℂ) * (Complex.cos a + Complex.sin a * Complex.I) := by
    rw [← Complex.ofReal_cos, ← Complex.ofReal_sin]
    apply Complex.ext <;> simp [Complex.cos_ofReal_re, Complex.sin_ofReal_re]
  rw [hc]
  exact Complex.arg_mul_cos_add_sin_mul_I hR ha

/-- The direction-cosine matrix from the local East-North-Up frame to the
planet-centred frame, exactly the nine entries of OP/coordinates.py
(row index first). -/
noncomputable def DCM_ENU_2_ECEF (theta phi : ℝ) : Fin 3 → Fin 3 → ℝ
  | 0, 0 => -Real.sin theta
  | 0, 1 => -(Real.cos theta * Real.sin phi)
  | 0, 2 => Real.cos theta * Real.cos phi
  | 1, 0 => Real.cos theta
  | 1, 1 => -(Real.sin theta * Real.sin phi)
  | 1, 2 => Real.cos phi * Real.sin theta
  | 2, 0 => 0
  | 2, 1 => Real.cos phi
  | 2, 2 => Real.sin phi

/-- A Cartesian position/velocity record, the input dictionary of
`Cartesian_to_Spherical`. -/
structure CartesianPoint where
  x : ℝ
  y : ℝ
  z : ℝ
  vx : ℝ
  vy : ℝ
  vz : ℝ

/-- A spherical state record, the output dictionary of
`Cartesian_to_Spherical` (fields in the source's return order). -/
structure SphericalPoint where
  r : ℝ
  theta : ℝ
  phi : ℝ
  V : ℝ
  psi : ℝ
  gamma : ℝ

/-- The local `r` of `Cartesian_to_Spherical`: the position norm. -/
noncomputable def c2s_r (c : CartesianPoint) : ℝ :=
  Real.sqrt (c.x ^ 2 + c.y ^ 2 + c.z ^ 2)

/-- The local `theta` of `Cartesian_to_Spherical`. -/
noncomputable def c2s_theta (c : CartesianPoint) : ℝ := atan2 c.y c.x

/-- The local `phi` of `Cartesian_to_Spherical`:
`pi/2 - arccos(z / r)`. -/
noncomputable def c2s_phi (c : CartesianPoint) : ℝ :=
  Real.pi / 2 - Real.arccos (c.z / c2s_r c)

/-- The local `V_mag` of `Cartesian_to_Spherical`: the velocity norm. -/
noncomputable def c2s_V (c : CartesianPoint) : ℝ :=
  Real.sqrt (c.vx ^ 2 + c.vy ^ 2 + c.vz ^ 2)

/-- The local `V_r` of `Cartesian_to_Spherical`: the velocity component
along the position unit vector `r_hat`. -/
noncomputable def c2s_Vr (c : CartesianPoint) : ℝ :=
  c.vx * (c.x / c2s_r c) + c.vy * (c.y / c2s_r c) + c.vz * (c.z / c2s_r c)

/-- The local `V_theta` of `Cartesian_to_Spherical`. -/
noncomputable def c2s_Vtheta (c : CartesianPoint) : ℝ :=
  Real.sqrt (c2s_V c ^ 2 - c2s_Vr c ^ 2)

/-- The local `gamma` of `Cartesian_to_Spherical`. -/
noncomputable def c2s_gamma (c : CartesianPoint) : ℝ :=
  atan2 (c2s_Vr c) (c2s_Vtheta c)

/-- East component of `V_ENU = DCM_ENU_2_ECEF(theta, phi).T @ v` in
`Cartesian_to_Spherical`. -/
noncomputable def c2s_vE (c : CartesianPoint) : ℝ :=
  DCM_ENU_2_ECEF (c2s_theta c) (c2s_phi c) 0 0 * c.vx +
    DCM_ENU_2_ECEF (c2s_theta c) (c2s_phi c) 1 0 * c.vy +
    DCM_ENU_2_ECEF (c2s_theta c) (c2s_phi c) 2 0 * c.vz

/-- North component of `V_ENU` in `Cartesian_to_Spherical`. -/
noncomputable def c2s_vN (c : CartesianPoint) : ℝ :=
  DCM_ENU_2_ECEF (c2s_theta c) (c2s_phi c) 0 1 * c.vx +
    DCM_ENU_2_ECEF (c2s_theta c) (c2s_phi c) 1 1 * c.vy +
    DCM_ENU_2_ECEF (c2s_theta c) (c2s_phi c) 2 1 * c.vz

/-- The local `psi` of `Cartesian_to_Spherical`:
`arctan2(V_ENU[1], V_ENU[0])`. -/
noncomputable def c2s_psi (c : CartesianPoint) : ℝ :=
  atan2 (c2s_vN c) (c2s_vE c)

/-- The inverse coordinate transform of OP/coordinates.py, assembled from
the locals above in the source's return order. -/
noncomputable def Cartesian_to_Spherical (c : CartesianPoint) : SphericalPoint :=
  ⟨c2s_r c, c2s_theta c, c2s_phi c, c2s_V c, c2s_psi c, c2s_gamma c⟩

/-- Modelled from the spec: `spherical_to_inertial_position_and_velocity`,
the forward transform named by the spec's round-trip law (section 8).  The
repository contains only its position half (the co-latitude formulas of
OP/main.py, reproduced verbatim here); the velocity half is absent from
the sources, so it is modelled from the spec and the equations of motion:
the East-North-Up velocity components are
`(V cos gamma cos psi, V cos gamma sin psi, V sin gamma)` and are rotated
into the planet-centred frame by `DCM_ENU_2_ECEF(theta, phi)`. -/
noncomputable def Spherical_to_Cartesian (s : SphericalPoint) : CartesianPoint :=
  ⟨s.r * Real.sin (Real.pi / 2 - s.phi) * Real.cos s.theta,
   s.r * Real.sin (Real.pi / 2 - s.phi) * Real.sin s.theta,
   s.r * Real.cos (Real.pi / 2 - s.phi),
   DCM_ENU_2_ECEF s.theta s.phi 0 0 * (s.V * Real.cos s.gamma * Real.cos s.psi) +
     DCM_ENU_2_ECEF s.theta s.phi 0 1 * (s.V * Real.cos s.gamma * Real.sin s.psi) +
     DCM_ENU_2_ECEF s.theta s.phi 0 2 * (s.V * Real.sin s.gamma),
   DCM_ENU_2_ECEF s.theta s.phi 1 0 * (s.V * Real.cos s.gamma * Real.cos s.psi) +
     DCM_ENU_2_ECEF s.theta s.phi 1 1 * (s.V * Real.cos s.gamma * Real.sin s.psi) +
     DCM_ENU_2_ECEF s.theta s.phi 1 2 * (s.V * Real.sin s.gamma),
   DCM_ENU_2_ECEF s.theta s.phi 2 0 * (s.V * Real.cos s.gamma * Real.cos s.psi) +
     DCM_ENU_2_ECEF s.theta s.phi 2 1 * (s.V * Real.cos s.gamma * Real.sin s.psi) +
     DCM_ENU_2_ECEF s.theta s.phi 2 2 * (s.V * Real.sin s.gamma)⟩

lemma s2c_x (s : SphericalPoint) :
    (Spherical_to_Cartesian s).x = s.r * Real.cos s.phi * Real.cos s.theta := by
  show s.r * Real.sin (Real.pi / 2 - s.phi) * Real.cos s.theta = _
  rw [Real.sin_pi_div_two_sub]

lemma s2c_y (s : SphericalPoint) :
    (Spherical_to_Cartesian s).y = s.r * Real.cos s.phi * Real.sin s.theta := by
  show s.r * Real.sin (Real.pi / 2 - s.phi) * Real.sin s.theta = _
  rw [Real.sin_pi_div_two_sub]

lemma s2c_z (s : SphericalPoint) :
    (Spherical_to_Cartesian s).z = s.r * Real.sin s.phi := by
  show s.r * Real.cos (Real.pi / 2 - s.phi) = _
  rw [Real.cos_pi_div_two_sub]

lemma s2c_vx (s : SphericalPoint) :
    (Spherical_to_Cartesian s).vx =
      -Real.sin s.theta * (s.V * Real.cos s.gamma * Real.cos s.psi) +
        -(Real.cos s.theta * Real.sin s.phi) *
          (s.V * Real.cos s.gamma * Real.sin s.psi) +
        Real.cos s.theta * Real.cos s.phi * (s.V * Real.sin s.gamma) := rfl

lemma s2c_vy (s : SphericalPoint) :
    (Spherical_to_Cartesian s).vy =
      Real.cos s.theta * (s.V * Real.cos s.gamma * Real.cos s.psi) +
        -(Real.sin s.theta * Real.sin s.phi) *
          (s.V * Real.cos s.gamma * Real.sin s.psi) +
        Real.cos s.phi * Real.sin s.theta * (s.V * Real.sin s.gamma) := rfl

lemma s2c_vz (s : SphericalPoint) :
    (Spherical_to_Cartesian s).vz =
      0 * (s.V * Real.cos s.gamma * Real.cos s.psi) +
        Real.cos s.phi * (s.V * Real.cos s.gamma * Real.sin s.psi) +
        Real.sin s.phi * (s.V * Real.sin s.gamma) := rfl

/-- C8 (amended): for a state with positive radius and speed, latitude and
flight-path angle strictly inside `(-pi/2, pi/2)`, and longitude and
heading in the principal range `(-pi, pi]`, converting to inertial
Cartesian position and velocity and back through `Cartesian_to_Spherical`
reconstructs the state exactly in real arithmetic - in particular within
the claimed 1e-9 relative tolerance. -/
theorem roundtrip_reconstructs (r0 th0 ph0 V0 ps0 ga0 : ℝ)
    (hr : 0 < r0) (hV : 0 < V0)
    (hphi : ph0 ∈ Set.Ioo (-(Real.pi / 2)) (Real.pi / 2))
    (hgamma : ga0 ∈ Set.Ioo (-(Real.pi / 2)) (Real.pi / 2))
    (htheta : th0 ∈ Set.Ioc (-Real.pi) Real.pi)
    (hpsi : ps0 ∈ Set.Ioc (-Real.pi) Real.pi) :
    Cartesian_to_Spherical (Spherical_to_Cartesian ⟨r0, th0, ph0, V0, ps0, ga0⟩) =
      ⟨r0, th0, ph0, V0, ps0, ga0⟩ := by
  have hcph : 0 < Real.cos ph0 := Real.cos_pos_of_mem_Ioo hphi
  have hcga : 0 < Real.cos ga0 := Real.cos_pos_of_mem_Ioo hgamma
  have hx := s2c_x ⟨r0, th0, ph0, V0, ps0, ga0⟩
  have hy := s2c_y ⟨r0, th0, ph0, V0, ps0, ga0⟩
  have hz := s2c_z ⟨r0, th0, ph0, V0, ps0, ga0⟩
  have hvx := s2c_vx ⟨r0, th0, ph0, V0, ps0, ga0⟩
  have hvy := s2c_vy ⟨r0, th0, ph0, V0, ps0, ga0⟩
  have hvz := s2c_vz ⟨r0, th0, ph0, V0, ps0, ga0⟩
  simp only at hx hy hz hvx hvy hvz
  have hr2 : (Spherical_to_Cartesian ⟨r0, th0, ph0, V0, ps0, ga0⟩).x ^ 2 +
      (Spherical_to_Cartesian ⟨r0, th0, ph0, V0, ps0, ga0⟩).y ^ 2 +
      (Spherical_to_Cartesian ⟨r0, th0, ph0, V0, ps0, ga0⟩).z ^ 2 = r0 ^ 2 := by
    rw [hx, hy, hz]
    linear_combination (r0 ^ 2 * Real.cos ph0 ^ 2) * Real.sin_sq_add_cos_sq th0 +
      r0 ^ 2 * Real.sin_sq_add_cos_sq ph0
  have hrr : c2s_r (Spherical_to_Cartesian ⟨r0, th0, ph0, V0, ps0, ga0⟩) = r0 := by
    rw [c2s_r, hr2, Real.sqrt_sq hr.le]
  have hth : c2s_theta (Spherical_to_Cartesian ⟨r0, th0, ph0, V0, ps0, ga0⟩) = th0 := by
    rw [c2s_theta, hy, hx]
    exact atan2_mul (r0 * Real.cos ph0) th0 (mul_pos hr hcph) htheta
  have hph : c2s_phi (Spherical_to_Cartesian ⟨r0, th0, ph0, V0, ps0, ga0⟩) = ph0 := by
    rw [c2s_phi, hrr, hz, mul_comm r0 (Real.sin ph0),
      mul_div_assoc, div_self (ne_of_gt hr), mul_one,
      ← Real.cos_pi_div_two_sub ph0,
      Real.arccos_cos (by linarith [hphi.2]) (by linarith [hphi.1, Real.pi_pos])]
    ring
  have hv2 : (Spherical_to_Cartesian ⟨r0, th0, ph0, V0, ps0, ga0⟩).vx ^ 2 +
      (Spherical_to_Cartesian ⟨r0, th0, ph0, V0, ps0, ga0⟩).vy ^ 2 +
      (Spherical_to_Cartesian ⟨r0, th0, ph0, V0, ps0, ga0⟩).vz ^ 2 = V0 ^ 2 := by
    rw [hvx, hvy, hvz]
    linear_combination
      ((V0 * Real.cos ga0 * Real.cos ps0) ^ 2 +
          (Real.sin ph0 * (V0 * Real.cos ga0 * Real.sin ps0) -
            Real.cos ph0 * (V0 * Real.sin ga0)) ^ 2) * Real.sin_sq_add_cos_sq th0 +
        ((V0 * Real.cos ga0 * Real.sin ps0) ^ 2 + (V0 * Real.sin ga0) ^ 2) *
          Real.sin_sq_add_cos_sq ph0 +
        (V0 ^ 2 * Real.cos ga0 ^ 2) * Real.sin_sq_add_cos_sq ps0 +
        V0 ^ 2 * Real.sin_sq_add_cos_sq ga0
  have hVv : c2s_V (Spherical_to_Cartesian ⟨r0, th0, ph0, V0, ps0, ga0⟩) = V0 := by
    rw [c2s_V, hv2, Real.sqrt_sq hV.le]
  have hdot : (Spherical_to_Cartesian ⟨r0, th0, ph0, V0, ps0, ga0⟩).vx *
      (Spherical_to_Cartesian ⟨r0, th0, ph0, V0, ps0, ga0⟩).x +
      (Spherical_to_Cartesian ⟨r0, th0, ph0, V0, ps0, ga0⟩).vy *
      (Spherical_to_Cartesian ⟨r0, th0, ph0, V0, ps0, ga0⟩).y +
      (Spherical_to_Cartesian ⟨r0, th0, ph0, V0, ps0, ga0⟩).vz *
      (Spherical_to_Cartesian ⟨r0, th0, ph0, V0, ps0, ga0⟩).z =
      r0 * (V0 * Real.sin ga0) := by
    rw [hx, hy, hz, hvx, hvy, hvz]
    linear_combination (r0 * (Real.cos ph0 ^ 2 * (V0 * Real.sin ga0) -
        Real.sin ph0 * Real.cos ph0 * (V0 * Real.cos ga0 * Real.sin ps0))) *
        Real.sin_sq_add_cos_sq th0 +
      (r0 * (V0 * Real.sin ga0)) * Real.sin_sq_add_cos_sq ph0
  have hVr : c2s_Vr (Spherical_to_Cartesian ⟨r0, th0, ph0, V0, ps0, ga0⟩) =
      V0 * Real.sin ga0 := by
    have h1 : c2s_Vr (Spherical_to_Cartesian ⟨r0, th0, ph0, V0, ps0, ga0⟩) =
        ((Spherical_to_Cartesian ⟨r0, th0, ph0, V0, ps0, ga0⟩).vx *
          (Spherical_to_Cartesian ⟨r0, th0, ph0, V0, ps0, ga0⟩).x +
          (Spherical_to_Cartesian ⟨r0, th0, ph0, V0, ps0, ga0⟩).vy *
          (Spherical_to_Cartesian ⟨r0, th0, ph0, V0, ps0, ga0⟩).y +
          (Spherical_to_Cartesian ⟨r0, th0, ph0, V0, ps0, ga0⟩).vz *
          (Spherical_to_Cartesian ⟨r0, th0, ph0, V0, ps0, ga0⟩).z) / r0 := by
      rw [c2s_Vr, hrr]
      ring
    rw [h1, hdot, mul_div_cancel_left₀ _ (ne_of_gt hr)]
  have hVth : c2s_Vtheta (Spherical_to_Cartesian ⟨r0, th0, ph0, V0, ps0, ga0⟩) =
      V0 * Real.cos ga0 := by
    rw [c2s_Vtheta, hVv, hVr]
    have hsq : V0 ^ 2 - (V0 * Real.sin ga0) ^ 2 = (V0 * Real.cos ga0) ^ 2 := by
      linear_combination (-(V0 ^ 2)) * Real.sin_sq_add_cos_sq ga0
    rw [hsq, Real.sqrt_sq (mul_pos hV hcga).le]
  have hga : c2s_gamma (Spherical_to_Cartesian ⟨r0, th0, ph0, V0, ps0, ga0⟩) = ga0 := by
    rw [c2s_gamma, hVr, hVth]
    exact atan2_mul V0 ga0 hV
      ⟨by linarith [hgamma.1, Real.pi_pos], by linarith [hgamma.2, Real.pi_pos]⟩
  have hvE : c2s_vE (Spherical_to_Cartesian ⟨r0, th0, ph0, V0, ps0, ga0⟩) =
      V0 * Real.cos ga0 * Real.cos ps0 := by
    rw [c2s_vE, hth, hph, hvx, hvy, hvz]
    simp only [DCM_ENU_2_ECEF]
    linear_combination (V0 * Real.cos ga0 * Real.cos ps0) * Real.sin_sq_add_cos_sq th0
  have hvN : c2s_vN (Spherical_to_Cartesian ⟨r0, th0, ph0, V0, ps0, ga0⟩) =
      V0 * Real.cos ga0 * Real.sin ps0 := by
    rw [c2s_vN, hth, hph, hvx, hvy, hvz]
    simp only [DCM_ENU_2_ECEF]
    linear_combination (Real.sin ph0 ^ 2 * (V0 * Real.cos ga0 * Real.sin ps0) -
        Real.sin ph0 * Real.cos ph0 * (V0 * Real.sin ga0)) *
        Real.sin_sq_add_cos_sq th0 +
      (V0 * Real.cos ga0 * Real.sin ps0) * Real.sin_sq_add_cos_sq ph0
  have hps : c2s_psi (Spherical_to_Cartesian ⟨r0, th0, ph0, V0, ps0, ga0⟩) = ps0 := by
    rw [c2s_psi, hvN, hvE]
    exact atan2_mul (V0 * Real.cos ga0) ps0 (mul_pos hV hcga) hpsi
  simp only [Cartesian_to_Spherical, SphericalPoint.mk.injEq]
  exact ⟨hrr, hth, hph, hVv, hps, hga⟩

/-- Concrete instance of the amended C8 theorem at the state
`(r, theta, phi, V, psi, gamma) = (1, 0, 0, 1, 0, 0)`. -/
theorem roundtrip_reconstructs_witness :
    (0 : ℝ) < 1 ∧
    Cartesian_to_Spherical (Spherical_to_Cartesian ⟨1, 0, 0, 1, 0, 0⟩) =
      (⟨1, 0, 0, 1, 0, 0⟩ : SphericalPoint) := by
  refine ⟨one_pos, roundtrip_reconstructs 1 0 0 1 0 0 one_pos one_pos
    ⟨by linarith [Real.pi_pos], by linarith [Real.pi_pos]⟩
    ⟨by linarith [Real.pi_pos], by linarith [Real.pi_pos]⟩
    ⟨by linarith [Real.pi_pos], Real.pi_pos.le⟩
    ⟨by linarith [Real.pi_pos], Real.pi_pos.le⟩⟩

/-- C8 counterexample: the state
`(r, theta, phi, V, psi, gamma) = (1, 0, 0, 1, 0, pi)` satisfies the
claim's stated conditions (`r > 0`, `phi` strictly inside `(-pi/2, pi/2)`,
`V > 0`), yet the round trip reconstructs flight-path angle 0 instead of
`pi`, far outside the claimed 1e-9 relative tolerance. -/
theorem roundtrip_claim_counterexample :
    (0 : ℝ) < (⟨1, 0, 0, 1, 0, Real.pi⟩ : SphericalPoint).r ∧
    (⟨(1 : ℝ), 0, 0, 1, 0, Real.pi⟩ : SphericalPoint).phi ∈
      Set.Ioo (-(Real.pi / 2)) (Real.pi / 2) ∧
    (0 : ℝ) < (⟨1, 0, 0, 1, 0, Real.pi⟩ : SphericalPoint).V ∧
    (Cartesian_to_Spherical
      (Spherical_to_Cartesian ⟨1, 0, 0, 1, 0, Real.pi⟩)).gamma = 0 ∧
    ¬ |(Cartesian_to_Spherical
          (Spherical_to_Cartesian ⟨1, 0, 0, 1, 0, Real.pi⟩)).gamma -
        (⟨(1 : ℝ), 0, 0, 1, 0, Real.pi⟩ : SphericalPoint).gamma| ≤
      1 / 1000000000 *
        |(⟨(1 : ℝ), 0, 0, 1, 0, Real.pi⟩ : SphericalPoint).gamma| := by
  have hx : (Spherical_to_Cartesian ⟨1, 0, 0, 1, 0, Real.pi⟩).x = 1 := by
    rw [s2c_x]
    show (1 : ℝ) * Real.cos 0 * Real.cos 0 = 1
    norm_num
  have hy : (Spherical_to_Cartesian ⟨1, 0, 0, 1, 0, Real.pi⟩).y = 0 := by
    rw [s2c_y]
    show (1 : ℝ) * Real.cos 0 * Real.sin 0 = 0
    norm_num
  have hz : (Spherical_to_Cartesian ⟨1, 0, 0, 1, 0, Real.pi⟩).z = 0 := by
    rw [s2c_z]
    show (1 : ℝ) * Real.sin 0 = 0
    norm_num
  have hvx : (Spherical_to_Cartesian ⟨1, 0, 0, 1, 0, Real.pi⟩).vx = 0 := by
    rw [s2c_vx]
    show -Real.sin 0 * ((1 : ℝ) * Real.cos Real.pi * Real.cos 0) +
        -(Real.cos 0 * Real.sin 0) * ((1 : ℝ) * Real.cos Real.pi * Real.sin 0) +
        Real.cos 0 * Real.cos 0 * ((1 : ℝ) * Real.sin Real.pi) = 0
    norm_num [Real.sin_pi]
  have hvy : (Spherical_to_Cartesian ⟨1, 0, 0, 1, 0, Real.pi⟩).vy = -1 := by
    rw [s2c_vy]
    show Real.cos 0 * ((1 : ℝ) * Real.cos Real.pi * Real.cos 0) +
        -(Real.sin 0 * Real.sin 0) * ((1 : ℝ) * Real.cos Real.pi * Real.sin 0) +
        Real.cos 0 * Real.sin 0 * ((1 : ℝ) * Real.sin Real.pi) = -1
    norm_num [Real.cos_pi]
  have hvz : (Spherical_to_Cartesian ⟨1, 0, 0, 1, 0, Real.pi⟩).vz = 0 := by
    rw [s2c_vz]
    show (0 : ℝ) * ((1 : ℝ) * Real.cos Real.pi * Real.cos 0) +
        Real.cos 0 * ((1 : ℝ) * Real.cos Real.pi * Real.sin 0) +
        Real.sin 0 * ((1 : ℝ) * Real.sin Real.pi) = 0
    norm_num [Real.sin_pi]
  have hr1 : c2s_r (Spherical_to_Cartesian ⟨1, 0, 0, 1, 0, Real.pi⟩) = 1 := by
    rw [c2s_r, hx, hy, hz]
    norm_num
  have hVr0 : c2s_Vr (Spherical_to_Cartesian ⟨1, 0, 0, 1, 0, Real.pi⟩) = 0 := by
    rw [c2s_Vr, hr1, hx, hy, hz, hvx, hvy, hvz]
    norm_num
  have hV1 : c2s_V (Spherical_to_Cartesian ⟨1, 0, 0, 1, 0, Real.pi⟩) = 1 := by
    rw [c2s_V, hvx, hvy, hvz]
    norm_num
  have hVth1 : c2s_Vtheta (Spherical_to_Cartesian ⟨1, 0, 0, 1, 0, Real.pi⟩) = 1 := by
    rw [c2s_Vtheta, hV1, hVr0]
    norm_num
  have hga : (Cartesian_to_Spherical
      (Spherical_to_Cartesian ⟨1, 0, 0, 1, 0, Real.pi⟩)).gamma = 0 := by
    show c2s_gamma (Spherical_to_Cartesian ⟨1, 0, 0, 1, 0, Real.pi⟩) = 0
    rw [c2s_gamma, hVr0, hVth1]
    have h0 := atan2_mul 1 0 one_pos ⟨by linarith [Real.pi_pos], Real.pi_pos.le⟩
    simpa using h0
  refine ⟨one_pos, ⟨by linarith [Real.pi_pos], by linarith [Real.pi_pos]⟩,
    one_pos, hga, ?_⟩
  rw [hga]
  show ¬ |(0 : ℝ) - Real.pi| ≤ 1 / 1000000000 * |Real.pi|
  rw [zero_sub, abs_neg, abs_of_pos Real.pi_pos]
  intro hle
  nlinarith [Real.pi_pos]

end EntrySim
